import Mathlib

/-
Verification of the `unbalanced_dataset.pipeline` module (pipeline.py).

The module is a duck-typed orchestration layer: a Pipeline holds an ordered
list of (name, estimator) pairs and delegates fit / transform / predict-style
calls to the steps.  We embed it shallowly:

* an estimator object is modelled by its capability set (which methods the
  object exposes via hasattr) together with its class name;
* the data flowing through the pipeline is modelled symbolically: every method
  call on a step produces a distinct constructor application recording which
  step was called, on which running data, and with which parameters - this
  makes the call sequencing of the source fully observable;
* Python exceptions are modelled with an error type carried in Except;
* Python dicts are modelled as association lists iterated in list order.
-/

set_option autoImplicit false

deriving instance DecidableEq for Except

namespace UnbalancedPipeline

/-- Keyword parameters of one step: an association list parameter name to a
(symbolic) value. -/
abbrev ParamMap := List (String × String)

/-- Python exceptions raised by the code paths of pipeline.py. -/
inductive PyError where
  | valueError (msg : String)
  | typeError (msg : String)
  | keyError (key : String)
  | attributeError (attr : String)
  | nameError (missing : String)
  | notSupported (op : String)
  | indexError
  deriving DecidableEq, Repr

/-- An estimator object as pipeline.py sees it: duck-typed, probed with
hasattr.  Each field records whether the object exposes the method of that
name; clsName records type(obj).__name__ (used by _name_estimators). -/
structure Estimator where
  clsName : String := ""
  hasFit : Bool := false
  hasFitTransform : Bool := false
  hasFitSample : Bool := false
  hasTransform : Bool := false
  hasSample : Bool := false
  hasInverseTransform : Bool := false
  hasPredict : Bool := false
  hasPredictProba : Bool := false
  hasDecisionFunction : Bool := false
  hasPredictLogProba : Bool := false
  hasScore : Bool := false
  deriving DecidableEq, Repr

/-- Symbolic data values: the running X / y threaded through the pipeline.
Each method call on a step is recorded as a constructor application, so the
exact call sequence performed by the source is observable in the result. -/
inductive Val where
  | X : Val
  | Y : Val
  | noneV : Val
  | reshape (x : Val) : Val
  | transform (step : String) (x : Val) : Val
  | fitTransform (step : String) (x y : Val) (params : ParamMap) : Val
  | fitSampleX (step : String) (x y : Val) (params : ParamMap) : Val
  | fitSampleY (step : String) (x y : Val) (params : ParamMap) : Val
  | fitThenTransform (step : String) (x y : Val) (params : ParamMap) : Val
  | predict (step : String) (x : Val) : Val
  | predictProba (step : String) (x : Val) : Val
  | decisionFunction (step : String) (x : Val) : Val
  | predictLogProba (step : String) (x : Val) : Val
  | score (step : String) (x y : Val) : Val
  | fitted (step : String) (x y : Val) (params : ParamMap) : Val
  deriving DecidableEq, Repr

/-- A pipeline: the validated, shallow-copied list of (name, estimator)
pairs stored by Pipeline.__init__ as self.steps. -/
structure Pipeline where
  steps : List (String × Estimator)
  deriving DecidableEq, Repr

/-- A step is fit-like when it has fit, fit_transform or fit_sample
(the first hasattr group of the intermediate-step check in __init__). -/
def fitLike (e : Estimator) : Bool :=
  e.hasFit || e.hasFitTransform || e.hasFitSample

/-- A step is transform-or-sample-like when it has transform or sample
(the second hasattr group of the intermediate-step check in __init__). -/
def transformOrSampleLike (e : Estimator) : Bool :=
  e.hasTransform || e.hasSample

/-- Pipeline.__init__: unpack the step list (ValueError on an empty list,
from `names, estimators = zip(*steps)`), reject duplicate names
(`len(dict(steps)) != len(steps)` raises ValueError), then check every
intermediate step is fit-like and transform-or-sample-like (TypeError) and
that the final estimator has fit (TypeError). -/
def Pipeline.init (steps : List (String × Estimator)) : Except PyError Pipeline :=
  match steps.getLast? with
  | none => .error (.valueError "need more than 0 values to unpack")
  | some last =>
    if (steps.map Prod.fst).Nodup then
      if steps.dropLast.all (fun s => fitLike s.2 && transformOrSampleLike s.2) then
        if last.2.hasFit then
          .ok ⟨steps⟩
        else
          .error (.typeError "Last step of chain should implement fit")
      else
        .error (.typeError "All intermediate steps of the chain should be transforms")
    else
      .error (.valueError "Provided step names are not unique")

/-- Split a parameter key at the first occurrence of the two-character
separator, as pname.split with separator and maxsplit one does: returns the
part before the first occurrence and everything after it. -/
def splitChars : List Char → Option (List Char × List Char)
  | [] => none
  | [_] => none
  | c1 :: c2 :: rest =>
    if c1 = '_' && c2 = '_' then some ([], rest)
    else
      match splitChars (c2 :: rest) with
      | some lr => some (c1 :: lr.1, lr.2)
      | none => none

/-- Split a fit-parameter key at the first double-underscore separator;
none when the key has no separator (in which case the two-target unpacking
in _pre_transform raises ValueError). -/
def splitKey (s : String) : Option (String × String) :=
  (splitChars s.toList).map (fun lr => (String.mk lr.1, String.mk lr.2))

/-- Set a key in a parameter dict, overwriting an existing entry
(dict item assignment). -/
def setParam : ParamMap → String → String → ParamMap
  | [], k, v => [(k, v)]
  | (k0, v0) :: rest, k, v =>
    if k0 = k then (k, v) :: rest else (k0, v0) :: setParam rest k v

/-- The fit_params_steps dict: step name to its parameter dict. -/
abbrev StepParams := List (String × ParamMap)

/-- Write one split parameter into fit_params_steps
(`fit_params_steps[step][param] = pval`): none models the KeyError raised
when the step name is not a key of the dict. -/
def updStep : StepParams → String → String → String → Option StepParams
  | [], _, _, _ => none
  | (n, ps) :: rest, st, par, v =>
    if n = st then some ((n, setParam ps par v) :: rest)
    else
      match updStep rest st par v with
      | some rest2 => some ((n, ps) :: rest2)
      | none => none

/-- Dict lookup in fit_params_steps; every step name is a key by
construction, so the default branch is never reached on those keys. -/
def lookupD : StepParams → String → ParamMap
  | [], _ => []
  | (k, v) :: rest, n => if k = n then v else lookupD rest n

/-- The splitting loop of _pre_transform over the caller-supplied fit
parameters: for each key, split at the separator (ValueError when absent)
and store the value under its step name (KeyError when the step name is
unknown). -/
def splitParamsAux : StepParams → List (String × String) → Except PyError StepParams
  | acc, [] => .ok acc
  | acc, (k, v) :: rest =>
    match splitKey k with
    | none => .error (.valueError "need more than 1 value to unpack")
    | some sp =>
      match updStep acc sp.1 sp.2 v with
      | none => .error (.keyError sp.1)
      | some acc2 => splitParamsAux acc2 rest

/-- Parameter splitting of _pre_transform: fit_params_steps starts as a dict
mapping every step name to an empty dict, then the split items are written
into it. -/
def splitParams (names : List String) (fp : List (String × String)) :
    Except PyError StepParams :=
  splitParamsAux (names.map (fun n => (n, ([] : ParamMap)))) fp

/-- The per-step loop of _pre_transform over steps without the last one.
Branch order as in the source: fit_transform first, then fit_sample (which
replaces both the running data and the running labels), else fit followed by
transform (data only; a missing fit or transform attribute raises
AttributeError at the lookup).  The second component records, in order, the
names of the steps on which a fit-family method was actually invoked. -/
def preLoop (pf : String → ParamMap) :
    List (String × Estimator) → Val → Val → Except PyError (Val × Val) × List String
  | [], xt, yt => (.ok (xt, yt), [])
  | (n, t) :: rest, xt, yt =>
    if t.hasFitTransform then
      let r := preLoop pf rest (.fitTransform n xt yt (pf n)) yt
      (r.1, n :: r.2)
    else if t.hasFitSample then
      let r := preLoop pf rest (.fitSampleX n xt yt (pf n)) (.fitSampleY n xt yt (pf n))
      (r.1, n :: r.2)
    else if !t.hasFit then
      (.error (.attributeError "fit"), [])
    else if !t.hasTransform then
      (.error (.attributeError "transform"), [n])
    else
      let r := preLoop pf rest (.fitThenTransform n xt yt (pf n)) yt
      (r.1, n :: r.2)

/-- Pipeline._pre_transform: split the fit parameters per step name, run the
per-step loop over all steps but the last, and return the running data, the
running labels and the parameter dict of the final step.  The second
component is the fit trace of the loop (empty when splitting raised). -/
def Pipeline.preTransform (p : Pipeline) (x y : Val) (fp : List (String × String)) :
    Except PyError (Val × Val × ParamMap) × List String :=
  match splitParams (p.steps.map Prod.fst) fp with
  | .error e => (.error e, [])
  | .ok fps =>
    match p.steps.getLast? with
    | none => (.error .indexError, [])
    | some last =>
      let r := preLoop (fun n => lookupD fps n) p.steps.dropLast x y
      (r.1.map (fun xy => (xy.1, xy.2, lookupD fps last.1)), r.2)

/-- Pipeline.fit: _pre_transform, then fit of the final estimator on the
transformed data with its parameter dict.  The ok value records the terminal
fit call; the trace extends the _pre_transform trace with the final step. -/
def Pipeline.fit (p : Pipeline) (x y : Val) (fp : List (String × String)) :
    Except PyError Val × List String :=
  match p.preTransform x y fp with
  | (.error e, tr) => (.error e, tr)
  | (.ok xyp, tr) =>
    match p.steps.getLast? with
    | none => (.error .indexError, tr)
    | some last =>
      if last.2.hasFit then
        (.ok (.fitted last.1 xyp.1 xyp.2.1 xyp.2.2), tr ++ [last.1])
      else
        (.error (.attributeError "fit"), tr)

/-- The inference-time loop shared by predict, predict_proba,
decision_function, predict_log_proba, transform and score: steps with a
fit_sample attribute are skipped (pass), every other step has its transform
applied to the running data (AttributeError when transform is absent). -/
def inferLoop : List (String × Estimator) → Val → Except PyError Val
  | [], xt => .ok xt
  | (n, t) :: rest, xt =>
    if t.hasFitSample then inferLoop rest xt
    else if t.hasTransform then inferLoop rest (.transform n xt)
    else .error (.attributeError "transform")

/-- Modelled from the spec: the decorator
if_delegate_has_method with delegate equal to the final estimator comes from
the external scikit-learn dependency and is not part of this repository.
Per the spec, an operation whose matching capability is absent on the final
step surfaces a not-supported error at call time instead of running. -/
def delegated (cap : Estimator → Bool) (opName : String)
    (body : (String × Estimator) → Except PyError Val)
    (p : Pipeline) : Except PyError Val :=
  match p.steps.getLast? with
  | none => .error .indexError
  | some last =>
    if cap last.2 then body last else .error (.notSupported opName)

/-- Pipeline.predict: inference loop over the steps without the last, then
predict of the final estimator. -/
def Pipeline.predict (p : Pipeline) (x : Val) : Except PyError Val :=
  delegated (fun e => e.hasPredict) "predict"
    (fun last => (inferLoop p.steps.dropLast x).map (fun xt => .predict last.1 xt)) p

/-- Pipeline.predict_proba: inference loop over the steps without the last,
then predict_proba of the final estimator. -/
def Pipeline.predictProba (p : Pipeline) (x : Val) : Except PyError Val :=
  delegated (fun e => e.hasPredictProba) "predict_proba"
    (fun last => (inferLoop p.steps.dropLast x).map (fun xt => .predictProba last.1 xt)) p

/-- Pipeline.decision_function: inference loop over the steps without the
last, then decision_function of the final estimator. -/
def Pipeline.decisionFunction (p : Pipeline) (x : Val) : Except PyError Val :=
  delegated (fun e => e.hasDecisionFunction) "decision_function"
    (fun last => (inferLoop p.steps.dropLast x).map (fun xt => .decisionFunction last.1 xt)) p

/-- Pipeline.predict_log_proba: inference loop over the steps without the
last, then predict_log_proba of the final estimator. -/
def Pipeline.predictLogProba (p : Pipeline) (x : Val) : Except PyError Val :=
  delegated (fun e => e.hasPredictLogProba) "predict_log_proba"
    (fun last => (inferLoop p.steps.dropLast x).map (fun xt => .predictLogProba last.1 xt)) p

/-- Pipeline.transform: the loop runs over ALL steps of the pipeline
(`for name, transform in self.steps`), not only the non-final ones, and the
running data is returned with no separate terminal call. -/
def Pipeline.transform (p : Pipeline) (x : Val) : Except PyError Val :=
  delegated (fun e => e.hasTransform) "transform"
    (fun _ => inferLoop p.steps x) p

/-- Pipeline.score: inference loop over the steps without the last, then
score of the final estimator on the data and the targets.  The two bare
print statements of the source around the transform call only write the
shape of the running data to standard output and are modelled as no-ops. -/
def Pipeline.score (p : Pipeline) (x y : Val) : Except PyError Val :=
  delegated (fun e => e.hasScore) "score"
    (fun last => (inferLoop p.steps.dropLast x).map (fun xt => .score last.1 xt y)) p

/-- The loop body of Pipeline.inverse_transform.  The source reads
hasattr(transform, "fit_sample"), but the loop of inverse_transform binds
the variables name and step, no local or module-level binding of the name
transform exists in that scope, so Python raises NameError on the first
iteration of the loop. -/
def invLoop : List (String × Estimator) → Val → Except PyError Val
  | [], xt => .ok xt
  | _ :: _, _ => .error (.nameError "transform")

/-- Pipeline.inverse_transform: after the decorator gate on the final
estimator and the 1-d reshape, the loop walks self.steps reversed; its body
raises NameError (see invLoop). -/
def Pipeline.inverseTransform (p : Pipeline) (ndim1 : Bool) (x : Val) :
    Except PyError Val :=
  delegated (fun e => e.hasInverseTransform) "inverse_transform"
    (fun _ =>
      let x1 := if ndim1 then Val.reshape x else x
      invLoop p.steps.reverse x1) p

/-- Increment the count of a name in the namecount dict
(`namecount[name] += 1` on a defaultdict of int). -/
def assocInc : List (String × Nat) → String → List (String × Nat)
  | [], k => [(k, 1)]
  | (k0, v) :: rest, k =>
    if k0 = k then (k0, v + 1) :: rest else (k0, v) :: assocInc rest k

/-- Lookup in the namecount dict (none models absence of the key). -/
def assocGet : List (String × Nat) → String → Option Nat
  | [], _ => none
  | (k0, v) :: rest, k => if k0 = k then some v else assocGet rest k

/-- Overwrite the value of an existing key in the namecount dict
(`namecount[name] -= 1`; the key is present whenever this is reached). -/
def assocSet : List (String × Nat) → String → Nat → List (String × Nat)
  | [], _, _ => []
  | (k0, v0) :: rest, k, v =>
    if k0 = k then (k0, v) :: rest else (k0, v0) :: assocSet rest k v

/-- The counting loop of _name_estimators: one increment per occurrence of
each lowercased class name. -/
def collectCounts (names : List String) : List (String × Nat) :=
  names.foldl assocInc []

/-- The suffixing loop of _name_estimators.  The source iterates the indices
in reversed order, reading and writing only the entry at the current index
and the namecount dict; this is the same computation as a right-to-left
traversal of the list threading the dict through. -/
def suffixR : List String → List (String × Nat) → List String × List (String × Nat)
  | [], nc => ([], nc)
  | n0 :: rest, nc =>
    let pr := suffixR rest nc
    match assocGet pr.2 n0 with
    | some v => ((n0 ++ "-" ++ toString v) :: pr.1, assocSet pr.2 n0 (v - 1))
    | none => (n0 :: pr.1, pr.2)

/-- Lowercase a class name, character by character (the kernel cannot
reduce String.map, so the equivalent traversal of the character list is
used). -/
def lowerStr (s : String) : String :=
  String.mk (s.toList.map Char.toLower)

/-- The lowercased class names of a list of estimators
(`type(estimator).__name__.lower()`). -/
def lowerNames (ests : List Estimator) : List String :=
  ests.map (fun e => lowerStr e.clsName)

/-- _name_estimators: lowercase the class names, count occurrences, delete
the entries with count one from the dict, run the reversed suffixing loop,
and pair the resulting names with the estimators. -/
def nameEstimators (ests : List Estimator) : List (String × Estimator) :=
  let names := lowerNames ests
  let nc := (collectCounts names).filter (fun kv => kv.2 != 1)
  (suffixR names nc).1.zip ests

/-! Claim-side definitions.  These follow the wording of the specification
(for refinement comparisons against the source translations above). -/

/-- Spec wording of a pure-inference operation: run the input through all
NON-final steps using their transform, skipping any step that has a
resampling capability, then delegate to the matching capability on the
final step only. -/
def inferClaimed (cap : Estimator → Bool) (opName : String)
    (terminal : String → Val → Val) (p : Pipeline) (x : Val) : Except PyError Val :=
  match p.steps.getLast? with
  | none => .error .indexError
  | some last =>
    if cap last.2 then (inferLoop p.steps.dropLast x).map (terminal last.1)
    else .error (.notSupported opName)

/-- Spec wording of score: non-final steps transformed (resamplers
skipped), then score of the final step on the data and the targets. -/
def scoreClaimed (p : Pipeline) (x y : Val) : Except PyError Val :=
  match p.steps.getLast? with
  | none => .error .indexError
  | some last =>
    if last.2.hasScore then
      (inferLoop p.steps.dropLast x).map (fun xt => .score last.1 xt y)
    else .error (.notSupported "score")

/-- Spec wording of one step of the pre-transform phase: if the step has a
combined fit-and-transform capability use it; else if it has a combined
fit-and-resample capability use it, replacing both the running data and the
running labels; otherwise fit is called followed by transform, updating the
data only. -/
def stepClaim (pf : String → ParamMap) (acc : Except PyError (Val × Val))
    (s : String × Estimator) : Except PyError (Val × Val) :=
  acc.bind (fun xy =>
    if s.2.hasFitTransform then
      .ok (.fitTransform s.1 xy.1 xy.2 (pf s.1), xy.2)
    else if s.2.hasFitSample then
      .ok (.fitSampleX s.1 xy.1 xy.2 (pf s.1), .fitSampleY s.1 xy.1 xy.2 (pf s.1))
    else if s.2.hasFit then
      if s.2.hasTransform then
        .ok (.fitThenTransform s.1 xy.1 xy.2 (pf s.1), xy.2)
      else .error (.attributeError "transform")
    else .error (.attributeError "fit"))

/-- Spec wording of the pre-transform phase: split the parameters, process
each non-final step strictly in sequence, and return the transformed data,
the transformed labels and the parameter sub-mapping of the final step. -/
def preTransformClaimed (p : Pipeline) (x y : Val) (fp : List (String × String)) :
    Except PyError (Val × Val × ParamMap) :=
  match splitParams (p.steps.map Prod.fst) fp with
  | .error e => .error e
  | .ok fps =>
    match p.steps.getLast? with
    | none => .error .indexError
    | some last =>
      (p.steps.dropLast.foldl (stepClaim (fun n => lookupD fps n)) (.ok (x, y))).map
        (fun xy => (xy.1, xy.2, lookupD fps last.1))

/-- Name generation described sequentially: walk the candidate names in
order, keeping a prefix of the names already passed; a name occurring at
least twice in the whole list receives the suffix one plus the number of
its earlier occurrences. -/
def expGoD (d : String → Bool) : List String → List String → List String
  | [], _ => []
  | n0 :: rest, pre =>
    (if d n0 then n0 ++ "-" ++ toString (pre.count n0 + 1) else n0)
      :: expGoD d rest (pre ++ [n0])

/-- The auto-generated names the code produces: the k-th occurrence (in
forward traversal order) of a duplicated candidate name gets the suffix k,
so the last occurrence carries the highest suffix. -/
def expectedNames (all : List String) : List String :=
  expGoD (fun n => decide (2 ≤ all.count n)) all []

/-! Concrete estimators used as witnesses and counterexamples. -/

/-- A transformer: fit and transform. -/
def estScaler : Estimator := { clsName := "Scaler", hasFit := true, hasTransform := true }

/-- A classifier: fit, predict and score. -/
def estClf : Estimator :=
  { clsName := "Clf", hasFit := true, hasPredict := true, hasScore := true }

/-- An estimator exposing only fit. -/
def estFitOnly : Estimator := { clsName := "FitOnly", hasFit := true }

/-- An estimator exposing no methods at all. -/
def estNoCap : Estimator := { clsName := "NoCap" }

/-- A resampler that also exposes transform. -/
def estResamplerT : Estimator :=
  { clsName := "ResamplerT", hasFit := true, hasFitSample := true, hasTransform := true }

/-- An invertible transformer: fit, transform and inverse_transform. -/
def estInv : Estimator :=
  { clsName := "Inv", hasFit := true, hasTransform := true, hasInverseTransform := true }

/-- First object of class TypeA. -/
def estTypeA1 : Estimator := { clsName := "TypeA", hasFit := true, hasTransform := true }

/-- Second object of class TypeA (a different capability set). -/
def estTypeA2 : Estimator := { clsName := "TypeA", hasFit := true, hasSample := true }

/-- An object of class TypeB. -/
def estTypeB : Estimator := { clsName := "TypeB", hasFit := true }

/-! Helper lemmas (shared; not tied to a single claim). -/

/-- Successful construction stores the shallow-copied step list. -/
lemma init_ok_of (steps : List (String × Estimator)) (last : String × Estimator)
    (hl : steps.getLast? = some last) (hnd : (steps.map Prod.fst).Nodup)
    (hall : steps.dropLast.all (fun s => fitLike s.2 && transformOrSampleLike s.2) = true)
    (hfit : last.2.hasFit = true) : Pipeline.init steps = .ok ⟨steps⟩ := by
  simp [Pipeline.init, hl, hnd, hall, hfit]

/-! Claim theorems. -/

/-- C1: the claim states that inverse_transform walks the steps in reverse
order and applies the inverse transform of each step to the running data.
The code instead raises NameError on every call: the skip check of its loop
reads the name transform, which is unbound in that scope (the loop binds
name and step).  Below, a validly constructed one-step pipeline whose single
step supports inverse transformation errors instead of applying it. -/
theorem inverseTransform_nameError_bug :
    Pipeline.init [("s0", estInv)] = .ok ⟨[("s0", estInv)]⟩ ∧
    Pipeline.inverseTransform ⟨[("s0", estInv)]⟩ false Val.X
      = .error (.nameError "transform") := by
  decide

/-- C2 counterexample: on the step list [TypeA(), TypeA(), TypeB()] the code
generates the names typea-1, typea-2, typeb in order, not the claimed
typea-2, typea-1, typeb: the first occurrence gets the LOWEST suffix. -/
theorem nameEstimators_example_refutes :
    (nameEstimators [estTypeA1, estTypeA2, estTypeB]).map Prod.fst
        = ["typea-1", "typea-2", "typeb"] ∧
    (["typea-1", "typea-2", "typeb"] : List String)
        ≠ ["typea-2", "typea-1", "typeb"] := by
  decide

/-- C3 counterexample: on a validly constructed pipeline whose FINAL step has
both a resampling capability and a transform capability, Pipeline.transform
skips the final step entirely (its loop runs over all steps and skips
resamplers), whereas the claim says the final step receives the terminal
transform call. -/
theorem transform_final_resampler_skipped :
    Pipeline.init [("a", estScaler), ("b", estResamplerT)]
        = .ok ⟨[("a", estScaler), ("b", estResamplerT)]⟩ ∧
    Pipeline.transform ⟨[("a", estScaler), ("b", estResamplerT)]⟩ Val.X
        = .ok (.transform "a" .X) ∧
    inferClaimed (fun e => e.hasTransform) "transform" Val.transform
        ⟨[("a", estScaler), ("b", estResamplerT)]⟩ Val.X
        = .ok (.transform "b" (.transform "a" .X)) ∧
    Pipeline.transform ⟨[("a", estScaler), ("b", estResamplerT)]⟩ Val.X
        ≠ inferClaimed (fun e => e.hasTransform) "transform" Val.transform
            ⟨[("a", estScaler), ("b", estResamplerT)]⟩ Val.X := by
  decide

/-- C5: for a non-empty step list with unique names, construction succeeds
iff every non-final step is fit-like (fit, fit_transform or fit_sample) and
transform-or-sample-like (transform or sample) and the final step has fit;
when the capability condition fails, construction raises a type error. -/
theorem init_validity :
    ∀ (steps : List (String × Estimator)) (last : String × Estimator),
    steps.getLast? = some last → (steps.map Prod.fst).Nodup →
    ((Pipeline.init steps = .ok ⟨steps⟩) ↔
      (steps.dropLast.all (fun s => fitLike s.2 && transformOrSampleLike s.2) = true ∧
       last.2.hasFit = true)) ∧
    (¬(steps.dropLast.all (fun s => fitLike s.2 && transformOrSampleLike s.2) = true ∧
       last.2.hasFit = true) →
      ∃ m, Pipeline.init steps = .error (.typeError m)) := by
  intro steps last hl hnd
  cases hall : steps.dropLast.all (fun s => fitLike s.2 && transformOrSampleLike s.2) <;>
    cases hfit : last.2.hasFit
  · exact ⟨by simp [Pipeline.init, hl, hnd, hall, hfit], fun _ =>
      ⟨"All intermediate steps of the chain should be transforms",
        by simp [Pipeline.init, hl, hnd, hall]⟩⟩
  · exact ⟨by simp [Pipeline.init, hl, hnd, hall, hfit], fun _ =>
      ⟨"All intermediate steps of the chain should be transforms",
        by simp [Pipeline.init, hl, hnd, hall]⟩⟩
  · exact ⟨by simp [Pipeline.init, hl, hnd, hall, hfit], fun _ =>
      ⟨"Last step of chain should implement fit",
        by simp [Pipeline.init, hl, hnd, hall, hfit]⟩⟩
  · exact ⟨by simp [Pipeline.init, hl, hnd, hall, hfit], fun hc =>
      absurd ⟨rfl, rfl⟩ hc⟩

/-- C5 witness: a scaler-classifier pipeline is accepted, and a pipeline
whose intermediate step has no transform-or-sample capability is rejected
with a type error. -/
theorem init_validity_witness :
    Pipeline.init [("a", estScaler), ("b", estFitOnly)]
        = .ok ⟨[("a", estScaler), ("b", estFitOnly)]⟩ ∧
    ∃ m, Pipeline.init [("a", estFitOnly), ("b", estFitOnly)]
        = .error (.typeError m) :=
  ⟨(init_validity [("a", estScaler), ("b", estFitOnly)] ("b", estFitOnly)
      rfl (by decide)).1.mpr (by decide),
   (init_validity [("a", estFitOnly), ("b", estFitOnly)] ("b", estFitOnly)
      rfl (by decide)).2 (by decide)⟩

/-- C6: duplicate step names raise the configuration (value) error, whatever
the capabilities of the steps are: the duplicate check in __init__ comes
before every capability check, so the result is the value error even when a
type error would also apply. -/
theorem init_duplicate_names :
    ∀ (steps : List (String × Estimator)) (last : String × Estimator),
    steps.getLast? = some last → ¬(steps.map Prod.fst).Nodup →
    Pipeline.init steps = .error (.valueError "Provided step names are not unique") := by
  intro steps last hl hnd
  simp [Pipeline.init, hl, hnd]

/-- C6 witness: two steps sharing a name, where the first step is also
capability-invalid, still produce the duplicate-name value error. -/
theorem init_duplicate_names_witness :
    Pipeline.init [("a", estNoCap), ("a", estFitOnly)]
        = .error (.valueError "Provided step names are not unique") :=
  init_duplicate_names [("a", estNoCap), ("a", estFitOnly)] ("a", estFitOnly)
    rfl (by decide)

/-- C8: construction only checks fit on the final step, so a pipeline whose
final step lacks predict or score is accepted; calling the corresponding
operation then raises the not-supported error at call time. -/
theorem missing_capability_notSupported :
    ∀ (steps : List (String × Estimator)) (last : String × Estimator) (x y : Val),
    steps.getLast? = some last → (steps.map Prod.fst).Nodup →
    steps.dropLast.all (fun s => fitLike s.2 && transformOrSampleLike s.2) = true →
    last.2.hasFit = true →
    Pipeline.init steps = .ok ⟨steps⟩ ∧
    (last.2.hasPredict = false →
      Pipeline.predict ⟨steps⟩ x = .error (.notSupported "predict")) ∧
    (last.2.hasScore = false →
      Pipeline.score ⟨steps⟩ x y = .error (.notSupported "score")) := by
  intro steps last x y hl hnd hall hfit
  refine ⟨init_ok_of steps last hl hnd hall hfit, ?_, ?_⟩
  · intro hp
    simp [Pipeline.predict, delegated, hl, hp]
  · intro hs
    simp [Pipeline.score, delegated, hl, hs]

/-- C8 witness: a pipeline ending in a fit-only estimator is constructed
without error, yet predict and score raise the not-supported error. -/
theorem missing_capability_notSupported_witness :
    Pipeline.init [("a", estScaler), ("b", estFitOnly)]
        = .ok ⟨[("a", estScaler), ("b", estFitOnly)]⟩ ∧
    Pipeline.predict ⟨[("a", estScaler), ("b", estFitOnly)]⟩ Val.X
        = .error (.notSupported "predict") ∧
    Pipeline.score ⟨[("a", estScaler), ("b", estFitOnly)]⟩ Val.X Val.Y
        = .error (.notSupported "score") :=
  ⟨(missing_capability_notSupported [("a", estScaler), ("b", estFitOnly)]
      ("b", estFitOnly) Val.X Val.Y rfl (by decide) (by decide) rfl).1,
   (missing_capability_notSupported [("a", estScaler), ("b", estFitOnly)]
      ("b", estFitOnly) Val.X Val.Y rfl (by decide) (by decide) rfl).2.1 rfl,
   (missing_capability_notSupported [("a", estScaler), ("b", estFitOnly)]
      ("b", estFitOnly) Val.X Val.Y rfl (by decide) (by decide) rfl).2.2 rfl⟩

/-- C9: constructing from the empty step list raises the unpacking value
error before any validation, and every successfully constructed pipeline
has a non-empty step list. -/
theorem init_nonempty :
    Pipeline.init ([] : List (String × Estimator))
        = .error (.valueError "need more than 0 values to unpack") ∧
    ∀ (steps : List (String × Estimator)) (p : Pipeline),
      Pipeline.init steps = .ok p → steps ≠ [] := by
  refine ⟨rfl, ?_⟩
  intro steps p h hemp
  subst hemp
  simp [Pipeline.init] at h

/-- C9 witness: a concrete accepted pipeline has a non-empty step list. -/
theorem init_nonempty_witness : ([("clf", estFitOnly)] : List (String × Estimator)) ≠ [] :=
  init_nonempty.2 [("clf", estFitOnly)] ⟨[("clf", estFitOnly)]⟩ (by decide)

/-- Appending a final step to the inference loop: the loop over the whole
list is the loop over the front followed by the skip-or-transform treatment
of the final element. -/
lemma inferLoop_append (l : List (String × Estimator)) (s : String × Estimator) (x : Val) :
    inferLoop (l ++ [s]) x =
      (inferLoop l x).bind (fun xt =>
        if s.2.hasFitSample then .ok xt
        else if s.2.hasTransform then .ok (.transform s.1 xt)
        else .error (.attributeError "transform")) := by
  induction l generalizing x with
  | nil =>
    simp only [List.nil_append, inferLoop]
    by_cases h1 : s.2.hasFitSample <;> by_cases h2 : s.2.hasTransform <;>
      simp [inferLoop, h1, h2, Except.bind]
  | cons hd tl ih =>
    obtain ⟨n, t⟩ := hd
    simp only [List.cons_append, inferLoop]
    by_cases h1 : t.hasFitSample <;> by_cases h2 : t.hasTransform <;>
      simp [h1, h2, ih, Except.bind]

/-- C3 (amended): predict, predict_proba, decision_function,
predict_log_proba and score each run the data through the non-final steps
with transform, skipping resamplers, then delegate the terminal call to the
final step; transform agrees with this description whenever the final step
has no resampling capability (otherwise its loop, which runs over ALL
steps, skips the final step too). -/
theorem inference_ops_delegate :
    ∀ (p : Pipeline) (x y : Val),
    Pipeline.predict p x
        = inferClaimed (fun e => e.hasPredict) "predict" Val.predict p x ∧
    Pipeline.predictProba p x
        = inferClaimed (fun e => e.hasPredictProba) "predict_proba" Val.predictProba p x ∧
    Pipeline.decisionFunction p x
        = inferClaimed (fun e => e.hasDecisionFunction) "decision_function"
            Val.decisionFunction p x ∧
    Pipeline.predictLogProba p x
        = inferClaimed (fun e => e.hasPredictLogProba) "predict_log_proba"
            Val.predictLogProba p x ∧
    Pipeline.score p x y = scoreClaimed p x y ∧
    (∀ last, p.steps.getLast? = some last → last.2.hasFitSample = false →
      Pipeline.transform p x
        = inferClaimed (fun e => e.hasTransform) "transform" Val.transform p x) := by
  intro p x y
  refine ⟨rfl, rfl, rfl, rfl, rfl, ?_⟩
  intro last hl hfs
  have hsplit : p.steps.dropLast ++ [last] = p.steps :=
    List.dropLast_append_getLast? last hl
  simp only [Pipeline.transform, inferClaimed, delegated, hl]
  by_cases hc : last.2.hasTransform
  · rw [if_pos hc, if_pos hc, ← hsplit, inferLoop_append]
    cases h : inferLoop p.steps.dropLast x <;>
      simp [Except.bind, hfs, hc, Except.map, h]
  · rw [if_neg hc, if_neg hc]

/-- C3 amended witness: on a concrete two-step pipeline whose final step is
not a resampler, transform equals its claimed description. -/
theorem inference_ops_delegate_witness :
    Pipeline.transform ⟨[("a", estScaler), ("b", estClf)]⟩ Val.X
      = inferClaimed (fun e => e.hasTransform) "transform" Val.transform
          ⟨[("a", estScaler), ("b", estClf)]⟩ Val.X :=
  (inference_ops_delegate ⟨[("a", estScaler), ("b", estClf)]⟩ Val.X Val.Y).2.2.2.2.2
    ("b", estClf) rfl rfl

/-- A raised error aborts the rest of the claimed per-step fold. -/
lemma foldl_stepClaim_error (pf : String → ParamMap) (e : PyError) :
    ∀ (l : List (String × Estimator)), l.foldl (stepClaim pf) (.error e) = .error e := by
  intro l
  induction l with
  | nil => rfl
  | cons hd tl ih =>
    simpa [stepClaim, Except.bind] using ih

/-- The source loop of _pre_transform computes the claimed left fold. -/
lemma preLoop_foldl (pf : String → ParamMap) :
    ∀ (l : List (String × Estimator)) (x y : Val),
    (preLoop pf l x y).1 = l.foldl (stepClaim pf) (.ok (x, y)) := by
  intro l
  induction l with
  | nil => intro x y; rfl
  | cons hd tl ih =>
    intro x y
    obtain ⟨n, t⟩ := hd
    by_cases h1 : t.hasFitTransform
    · simpa [preLoop, stepClaim, Except.bind, h1] using ih _ _
    · by_cases h2 : t.hasFitSample
      · simpa [preLoop, stepClaim, Except.bind, h1, h2] using ih _ _
      · by_cases h3 : t.hasFit
        · by_cases h4 : t.hasTransform
          · simpa [preLoop, stepClaim, Except.bind, h1, h2, h3, h4] using ih _ _
          · simp [preLoop, stepClaim, Except.bind, h1, h2, h3, h4, foldl_stepClaim_error]
        · simp [preLoop, stepClaim, Except.bind, h1, h2, h3, foldl_stepClaim_error]

/-- C4: the pre-transform phase is exactly as claimed: each non-final step
is processed strictly in sequence, preferring a combined fit_transform,
then a combined fit_sample (replacing both the running data and the running
labels), and otherwise fit followed by transform (updating the data only);
the phase returns the transformed data, the transformed labels and the
parameter sub-mapping of the final step. -/
theorem preTransform_matches_claim :
    ∀ (p : Pipeline) (x y : Val) (fp : List (String × String)),
    (p.preTransform x y fp).1 = preTransformClaimed p x y fp := by
  intro p x y fp
  simp only [Pipeline.preTransform, preTransformClaimed]
  cases hs : splitParams (p.steps.map Prod.fst) fp with
  | error e => rfl
  | ok fps =>
    cases hl : p.steps.getLast? with
    | none => rfl
    | some last =>
      simp [preLoop_foldl]

/-- Writing a parameter under an existing step name leaves the key set of
fit_params_steps unchanged. -/
lemma updStep_keys :
    ∀ (acc : StepParams) (st par v : String) (acc2 : StepParams),
    updStep acc st par v = some acc2 → acc2.map Prod.fst = acc.map Prod.fst := by
  intro acc
  induction acc with
  | nil => intro st par v acc2 h; simp [updStep] at h
  | cons hd tl ih =>
    intro st par v acc2 h
    obtain ⟨n, ps⟩ := hd
    by_cases hn : n = st
    · simp only [updStep, if_pos hn] at h
      cases h
      rfl
    · simp only [updStep, if_neg hn] at h
      cases hrec : updStep tl st par v with
      | none => rw [hrec] at h; cases h
      | some rest2 =>
        rw [hrec] at h
        cases h
        simp [ih st par v rest2 hrec]

/-- A parameter whose step name is a key of fit_params_steps is written
successfully. -/
lemma updStep_mem :
    ∀ (acc : StepParams) (st par v : String),
    st ∈ acc.map Prod.fst → ∃ acc2, updStep acc st par v = some acc2 := by
  intro acc
  induction acc with
  | nil => intro st par v h; simp at h
  | cons hd tl ih =>
    intro st par v h
    obtain ⟨n, ps⟩ := hd
    by_cases hn : n = st
    · exact ⟨(n, setParam ps par v) :: tl, by simp [updStep, hn]⟩
    · have htl : st ∈ tl.map Prod.fst := by
        rcases List.mem_cons.mp h with heq | hm
        · exact absurd heq.symm hn
        · exact hm
      obtain ⟨rest2, hrest⟩ := ih st par v htl
      exact ⟨(n, ps) :: rest2, by simp [updStep, hn, hrest]⟩

/-- A parameter whose step name is not a key of fit_params_steps raises
KeyError (modelled as none). -/
lemma updStep_not_mem :
    ∀ (acc : StepParams) (st par v : String),
    st ∉ acc.map Prod.fst → updStep acc st par v = none := by
  intro acc
  induction acc with
  | nil => intro st par v _; rfl
  | cons hd tl ih =>
    intro st par v h
    obtain ⟨n, ps⟩ := hd
    simp only [List.map_cons, List.mem_cons] at h
    push_neg at h
    have hne : n ≠ st := fun heq => h.1 heq.symm
    simp [updStep, hne, ih st par v h.2]

/-- The splitting loop raises the unpacking ValueError whenever some key has
no separator and every key that does split carries a known step name. -/
lemma splitParamsAux_nosep :
    ∀ (fp : List (String × String)) (acc : StepParams),
    (∃ kv, kv ∈ fp ∧ splitKey kv.1 = none) →
    (∀ kv st pr, kv ∈ fp → splitKey kv.1 = some (st, pr) → st ∈ acc.map Prod.fst) →
    splitParamsAux acc fp = .error (.valueError "need more than 1 value to unpack") := by
  intro fp
  induction fp with
  | nil =>
    intro acc hex _
    obtain ⟨kv, hmem, _⟩ := hex
    simp at hmem
  | cons hd tl ih =>
    intro acc hex hall
    obtain ⟨k, v⟩ := hd
    cases hk : splitKey k with
    | none => simp [splitParamsAux, hk]
    | some sp =>
      have hmem : sp.1 ∈ acc.map Prod.fst :=
        hall (k, v) sp.1 sp.2 (by simp) (by rw [hk])
      obtain ⟨acc2, hupd⟩ := updStep_mem acc sp.1 sp.2 v hmem
      have hkeys := updStep_keys acc sp.1 sp.2 v acc2 hupd
      simp only [splitParamsAux, hk, hupd]
      apply ih acc2
      · obtain ⟨kv, hkvmem, hkvnone⟩ := hex
        rcases List.mem_cons.mp hkvmem with heq | htl
        · exfalso
          subst heq
          have hkn : splitKey k = none := hkvnone
          rw [hk] at hkn
          cases hkn
        · exact ⟨kv, htl, hkvnone⟩
      · intro kv st pr hkvmem hsp
        rw [hkeys]
        exact hall kv st pr (List.mem_cons_of_mem _ hkvmem) hsp

/-- C7: a fitting call whose parameter mapping contains a key without the
double-underscore separator (while every key that does split names an
actual step) raises ValueError in the splitting phase of _pre_transform,
and the error propagates unrecovered through fit. -/
theorem fit_malformed_param_valueError :
    ∀ (p : Pipeline) (x y : Val) (fp : List (String × String)),
    (∃ kv, kv ∈ fp ∧ splitKey kv.1 = none) →
    (∀ kv st pr, kv ∈ fp → splitKey kv.1 = some (st, pr) → st ∈ p.steps.map Prod.fst) →
    (p.preTransform x y fp).1
        = .error (.valueError "need more than 1 value to unpack") ∧
    (p.fit x y fp).1 = .error (.valueError "need more than 1 value to unpack") := by
  intro p x y fp hex hall
  have hsplit : splitParams (p.steps.map Prod.fst) fp
      = .error (.valueError "need more than 1 value to unpack") := by
    apply splitParamsAux_nosep fp _ hex
    intro kv st pr hm hs
    simpa using hall kv st pr hm hs
  have hpre : p.preTransform x y fp
      = (.error (.valueError "need more than 1 value to unpack"), []) := by
    simp [Pipeline.preTransform, hsplit]
  exact ⟨by rw [hpre], by simp [Pipeline.fit, hpre]⟩

/-- C7 witness: a separator-free key on a concrete two-step pipeline raises
the unpacking ValueError from both _pre_transform and fit. -/
theorem fit_malformed_param_valueError_witness :
    (Pipeline.preTransform ⟨[("a", estScaler), ("b", estClf)]⟩ Val.X Val.Y
        [("nosep", "1")]).1
      = .error (.valueError "need more than 1 value to unpack") ∧
    (Pipeline.fit ⟨[("a", estScaler), ("b", estClf)]⟩ Val.X Val.Y
        [("nosep", "1")]).1
      = .error (.valueError "need more than 1 value to unpack") :=
  fit_malformed_param_valueError ⟨[("a", estScaler), ("b", estClf)]⟩ Val.X Val.Y
    [("nosep", "1")]
    ⟨("nosep", "1"), by simp, by decide⟩
    (by
      intro kv st pr hm hs
      simp only [List.mem_singleton] at hm
      rw [hm] at hs
      rw [show splitKey "nosep" = none from rfl] at hs
      cases hs)

/-- The splitting loop raises KeyError at an unknown step name when every
key splits at a separator and some key names a step that does not exist. -/
lemma splitParamsAux_unknown :
    ∀ (fp : List (String × String)) (acc : StepParams),
    (∀ kv, kv ∈ fp → splitKey kv.1 ≠ none) →
    (∃ kv st pr, kv ∈ fp ∧ splitKey kv.1 = some (st, pr) ∧ st ∉ acc.map Prod.fst) →
    ∃ st, st ∉ acc.map Prod.fst ∧ splitParamsAux acc fp = .error (.keyError st) := by
  intro fp
  induction fp with
  | nil =>
    intro acc _ hex
    obtain ⟨kv, st, pr, hm, _, _⟩ := hex
    simp at hm
  | cons hd tl ih =>
    intro acc hall hex
    obtain ⟨k, v⟩ := hd
    cases hk : splitKey k with
    | none => exact absurd hk (hall (k, v) (by simp))
    | some sp =>
      by_cases hmem : sp.1 ∈ acc.map Prod.fst
      · obtain ⟨acc2, hupd⟩ := updStep_mem acc sp.1 sp.2 v hmem
        have hkeys := updStep_keys acc sp.1 sp.2 v acc2 hupd
        obtain ⟨kv, st, pr, hkvm, hkvs, hkvn⟩ := hex
        have hkvtl : kv ∈ tl := by
          rcases List.mem_cons.mp hkvm with heq | htl
          · exfalso
            subst heq
            have hks : splitKey k = some (st, pr) := hkvs
            rw [hk] at hks
            cases hks
            exact hkvn hmem
          · exact htl
        obtain ⟨st2, hst2, haux⟩ :=
          ih acc2 (fun kv2 h2 => hall kv2 (List.mem_cons_of_mem _ h2))
            ⟨kv, st, pr, hkvtl, hkvs, by rw [hkeys]; exact hkvn⟩
        rw [hkeys] at hst2
        exact ⟨st2, hst2, by simp [splitParamsAux, hk, hupd, haux]⟩
      · exact ⟨sp.1, hmem,
          by simp [splitParamsAux, hk, updStep_not_mem acc sp.1 sp.2 v hmem]⟩

/-- C10: a fitting call whose parameter mapping contains a separated key
whose step-name part names no step raises KeyError in the splitting phase,
before the per-step loop runs, so the fit trace is empty: no step is
fitted and no step state is modified by the failed call. -/
theorem fit_unknown_step_keyError :
    ∀ (p : Pipeline) (x y : Val) (fp : List (String × String)),
    (∀ kv, kv ∈ fp → splitKey kv.1 ≠ none) →
    (∃ kv st pr, kv ∈ fp ∧ splitKey kv.1 = some (st, pr) ∧ st ∉ p.steps.map Prod.fst) →
    ∃ st, st ∉ p.steps.map Prod.fst ∧
      p.preTransform x y fp = (.error (.keyError st), []) ∧
      p.fit x y fp = (.error (.keyError st), []) := by
  intro p x y fp hall hex
  have hkeys : ((p.steps.map Prod.fst).map (fun n => (n, ([] : ParamMap)))).map Prod.fst
      = p.steps.map Prod.fst := by
    simp
  obtain ⟨st, hst, haux⟩ := splitParamsAux_unknown fp
    ((p.steps.map Prod.fst).map (fun n => (n, ([] : ParamMap)))) hall
    (by
      obtain ⟨kv, st, pr, h1, h2, h3⟩ := hex
      exact ⟨kv, st, pr, h1, h2, by rw [hkeys]; exact h3⟩)
  rw [hkeys] at hst
  have hsplit : splitParams (p.steps.map Prod.fst) fp = .error (.keyError st) := haux
  have hpre : p.preTransform x y fp = (.error (.keyError st), []) := by
    simp [Pipeline.preTransform, hsplit]
  exact ⟨st, hst, hpre, by simp [Pipeline.fit, hpre]⟩

/-- C10 witness: the key bad__k on a pipeline with steps a and b raises
KeyError from both _pre_transform and fit, with an empty fit trace. -/
theorem fit_unknown_step_keyError_witness :
    ∃ st, st ∉ ([("a", estScaler), ("b", estClf)] :
        List (String × Estimator)).map Prod.fst ∧
      Pipeline.preTransform ⟨[("a", estScaler), ("b", estClf)]⟩ Val.X Val.Y
          [("bad__k", "1")] = (.error (.keyError st), []) ∧
      Pipeline.fit ⟨[("a", estScaler), ("b", estClf)]⟩ Val.X Val.Y
          [("bad__k", "1")] = (.error (.keyError st), []) :=
  fit_unknown_step_keyError ⟨[("a", estScaler), ("b", estClf)]⟩ Val.X Val.Y
    [("bad__k", "1")]
    (by
      intro kv hm
      simp only [List.mem_singleton] at hm
      rw [hm]
      decide)
    ⟨("bad__k", "1"), "bad", "k", by simp, by decide, by decide⟩

/-- Incrementing a name updates its own count. -/
lemma assocGet_assocInc_self :
    ∀ (m : List (String × Nat)) (k : String),
    assocGet (assocInc m k) k = some ((assocGet m k).getD 0 + 1) := by
  intro m
  induction m with
  | nil => intro k; simp [assocInc, assocGet]
  | cons hd tl ih =>
    intro k
    obtain ⟨k0, v⟩ := hd
    by_cases hk : k0 = k
    · simp [assocInc, assocGet, hk]
    · simp [assocInc, assocGet, hk, ih k]

/-- Incrementing a name leaves the counts of other names unchanged. -/
lemma assocGet_assocInc_ne :
    ∀ (m : List (String × Nat)) (k n : String), n ≠ k →
    assocGet (assocInc m k) n = assocGet m n := by
  intro m
  induction m with
  | nil =>
    intro k n hnk
    have hkn : ¬k = n := fun h => hnk h.symm
    simp [assocInc, assocGet, hkn]
  | cons hd tl ih =>
    intro k n hnk
    obtain ⟨k0, v⟩ := hd
    by_cases hk : k0 = k
    · subst hk
      have hk0n : ¬k0 = n := fun h => hnk h.symm
      simp [assocInc, assocGet, hk0n]
    · by_cases hn : k0 = n
      · simp [assocInc, assocGet, hk, hn, hnk]
      · simp [assocInc, assocGet, hk, hn, hnk, ih k n hnk]

/-- The counting fold computes occurrence counts on top of the counts
already accumulated. -/
lemma collect_get :
    ∀ (names : List String) (acc : List (String × Nat)) (n : String),
    assocGet (names.foldl assocInc acc) n =
      match assocGet acc n with
      | some v => some (v + names.count n)
      | none => if names.count n = 0 then none else some (names.count n) := by
  intro names
  induction names with
  | nil =>
    intro acc n
    cases h : assocGet acc n <;> simp [h]
  | cons m rest ih =>
    intro acc n
    simp only [List.foldl_cons]
    rw [ih (assocInc acc m) n]
    by_cases hmn : n = m
    · subst hmn
      rw [assocGet_assocInc_self acc n]
      cases h : assocGet acc n <;>
        simp [h, List.count_cons] <;> omega
    · rw [assocGet_assocInc_ne acc m n hmn]
      cases h : assocGet acc n <;>
        simp [h, List.count_cons, hmn]

/-- A name that is not a key gives no count. -/
lemma assocGet_not_mem :
    ∀ (l : List (String × Nat)) (n : String),
    n ∉ l.map Prod.fst → assocGet l n = none := by
  intro l
  induction l with
  | nil => intro n _; rfl
  | cons hd tl ih =>
    intro n h
    obtain ⟨k, v⟩ := hd
    simp only [List.map_cons, List.mem_cons] at h
    push_neg at h
    have hk : k ≠ n := fun heq => h.1 heq.symm
    simp [assocGet, hk, ih n h.2]

/-- Filtering an absent key still gives no count. -/
lemma assocGet_filter_none :
    ∀ (l : List (String × Nat)) (p : String × Nat → Bool) (n : String),
    assocGet l n = none → assocGet (l.filter p) n = none := by
  intro l
  induction l with
  | nil => intro p n _; rfl
  | cons hd tl ih =>
    intro p n h
    obtain ⟨k, v⟩ := hd
    by_cases hk : k = n
    · simp [assocGet, hk] at h
    · simp only [assocGet, if_neg hk] at h
      cases hp : p (k, v) <;>
        simp [List.filter_cons, hp, assocGet, hk, ih p n h]

/-- Lookup in a value-filtered dict with unique keys: the present value
survives iff it passes the filter. -/
lemma assocGet_filter_val :
    ∀ (l : List (String × Nat)) (p : Nat → Bool) (n : String),
    (l.map Prod.fst).Nodup →
    assocGet (l.filter (fun kv => p kv.2)) n =
      match assocGet l n with
      | some v => if p v then some v else none
      | none => none := by
  intro l
  induction l with
  | nil => intro p n _; rfl
  | cons hd tl ih =>
    intro p n hnd
    obtain ⟨k, v⟩ := hd
    simp only [List.map_cons, List.nodup_cons] at hnd
    by_cases hk : k = n
    · subst hk
      have htl : assocGet tl k = none := assocGet_not_mem tl k hnd.1
      cases hp : p v <;>
        simp [List.filter_cons, hp, assocGet, htl, assocGet_filter_none tl _ k htl]
    · cases hp : p v <;>
        simp [List.filter_cons, hp, assocGet, hk, ih p n hnd.2]

/-- The keys of the counting dict after an increment. -/
lemma keys_assocInc :
    ∀ (m : List (String × Nat)) (k : String),
    (assocInc m k).map Prod.fst =
      if k ∈ m.map Prod.fst then m.map Prod.fst else m.map Prod.fst ++ [k] := by
  intro m
  induction m with
  | nil => intro k; simp [assocInc]
  | cons hd tl ih =>
    intro k
    obtain ⟨k0, v⟩ := hd
    by_cases hk : k0 = k
    · simp [assocInc, hk]
    · have hne : k ≠ k0 := fun h => hk h.symm
      by_cases hmem : k ∈ tl.map Prod.fst <;>
        simp [assocInc, hk, hne, hmem, ih k]

/-- Incrementing preserves key uniqueness. -/
lemma nodup_keys_assocInc :
    ∀ (m : List (String × Nat)) (k : String),
    (m.map Prod.fst).Nodup → ((assocInc m k).map Prod.fst).Nodup := by
  intro m k h
  rw [keys_assocInc]
  by_cases hmem : k ∈ m.map Prod.fst
  · simpa [hmem]
  · simpa [hmem, List.nodup_append] using h

/-- The counting fold preserves key uniqueness. -/
lemma nodup_keys_collect :
    ∀ (names : List String) (acc : List (String × Nat)),
    (acc.map Prod.fst).Nodup → (((names.foldl assocInc acc)).map Prod.fst).Nodup := by
  intro names
  induction names with
  | nil => intro acc h; simpa
  | cons m rest ih =>
    intro acc h
    exact ih (assocInc acc m) (nodup_keys_assocInc acc m h)

/-- The namecount dict as _name_estimators uses it after deleting singleton
entries: a name maps to its total occurrence count iff that count is at
least two. -/
lemma namecount_get :
    ∀ (names : List String) (n : String),
    assocGet ((collectCounts names).filter (fun kv => kv.2 != 1)) n =
      if 2 ≤ names.count n then some (names.count n) else none := by
  intro names n
  have hnd : ((collectCounts names).map Prod.fst).Nodup :=
    nodup_keys_collect names [] (by simp)
  rw [assocGet_filter_val (collectCounts names) (fun v => v != 1) n hnd]
  have hc : assocGet (collectCounts names) n =
      if names.count n = 0 then none else some (names.count n) := by
    simpa using collect_get names [] n
  rw [hc]
  rcases Nat.lt_or_ge (names.count n) 2 with hlt | hge
  · interval_cases h : names.count n <;> simp
  · have h0 : ¬names.count n = 0 := by omega
    have h1 : (names.count n != 1) = true := by
      simp only [bne_iff_ne, ne_eq]
      omega
    simp [h0, h1, hge]

/-- Overwriting a key touches exactly that key, and only when present. -/
lemma assocGet_assocSet :
    ∀ (m : List (String × Nat)) (k : String) (x : Nat) (n : String),
    assocGet (assocSet m k x) n =
      if n = k then (assocGet m k).map (fun _ => x) else assocGet m n := by
  intro m
  induction m with
  | nil =>
    intro k x n
    by_cases hn : n = k <;> simp [assocSet, assocGet, hn]
  | cons hd tl ih =>
    intro k x n
    obtain ⟨k0, v0⟩ := hd
    by_cases hk : k0 = k
    · subst hk
      by_cases hn : n = k0
      · subst hn
        simp [assocSet, assocGet]
      · have hne : ¬k0 = n := fun h => hn h.symm
        simp [assocSet, assocGet, hn, hne]
    · by_cases hn : k0 = n
      · subst hn
        have hne : ¬k0 = k := hk
        have hne2 : ¬k = k0 := fun h => hne h.symm
        simp [assocSet, assocGet, hne, hne2]
      · simp [assocSet, assocGet, hk, hn, ih k x n]

/-- Invariant of the reversed suffixing loop: if the counter dict maps every
duplicated name (in the sense of the ambient predicate d) to the number of
its occurrences in pre plus those in the remaining list l, then the loop
renames exactly the duplicated entries of l, giving the k-th occurrence (in
forward order, counting occurrences in pre before l) the suffix k, and
leaves the counter at the occurrence counts of pre. -/
lemma suffixR_go :
    ∀ (d : String → Bool) (l pre : List String) (nc : List (String × Nat)),
    (∀ n, assocGet nc n = if d n then some (pre.count n + l.count n) else none) →
    (suffixR l nc).1 = expGoD d l pre ∧
    (∀ n, assocGet (suffixR l nc).2 n = if d n then some (pre.count n) else none) := by
  intro d l
  induction l with
  | nil =>
    intro pre nc hget
    refine ⟨rfl, ?_⟩
    intro n
    simpa using hget n
  | cons n0 rest ih =>
    intro pre nc hget
    have hget2 : ∀ n, assocGet nc n =
        if d n then some ((pre ++ [n0]).count n + rest.count n) else none := by
      intro n
      rw [hget n]
      by_cases hd0 : d n
      · simp only [if_pos hd0, List.count_append, List.count_cons]
        by_cases hn : n = n0 <;> simp [hn] <;> omega
      · simp [hd0]
    obtain ⟨ih1, ih2⟩ := ih (pre ++ [n0]) nc hget2
    have hn0 : assocGet (suffixR rest nc).2 n0 =
        if d n0 then some (pre.count n0 + 1) else none := by
      rw [ih2 n0]
      simp [List.count_append]
    by_cases hd0 : d n0
    · rw [if_pos hd0] at hn0
      refine ⟨?_, ?_⟩
      · simp only [suffixR, hn0, expGoD, if_pos hd0, ih1, Nat.add_sub_cancel]
      · intro n
        simp only [suffixR, hn0]
        rw [assocGet_assocSet]
        by_cases hn : n = n0
        · subst hn
          simp [hn0, hd0]
        · rw [if_neg hn, ih2 n]
          by_cases hdn : d n
          · simp [hdn, List.count_append, List.count_singleton', hn]
          · simp [hdn]
    · rw [if_neg hd0] at hn0
      refine ⟨?_, ?_⟩
      · simp only [suffixR, hn0, expGoD, if_neg hd0, ih1]
      · intro n
        simp only [suffixR, hn0]
        rw [ih2 n]
        by_cases hn : n = n0
        · subst hn
          simp [hd0]
        · by_cases hdn : d n
          · simp [hdn, List.count_append, List.count_singleton', hn]
          · simp [hdn]

/-- C2 (amended): name generation lowercases each class name and, for any
name occurring at least twice, appends a 1-based suffix equal to the
occurrence index in FORWARD traversal order (the loop walks the indices in
reverse, counting the suffix down from the duplicate count, so the last
occurrence receives the highest suffix and the first occurrence receives
suffix 1), pairing the resulting names with the estimators in order. -/
theorem nameEstimators_suffix_order :
    ∀ (ests : List Estimator),
    nameEstimators ests = (expectedNames (lowerNames ests)).zip ests := by
  intro ests
  have hmain := suffixR_go (fun n => decide (2 ≤ (lowerNames ests).count n))
    (lowerNames ests) []
    ((collectCounts (lowerNames ests)).filter (fun kv => kv.2 != 1))
    (by
      intro n
      rw [namecount_get (lowerNames ests) n]
      by_cases h2 : 2 ≤ (lowerNames ests).count n <;> simp [h2])
  simp only [nameEstimators, expectedNames]
  rw [hmain.1]

end UnbalancedPipeline
